import Mathlib

/-!
Verification of the mass-estimation pipeline (MassEstimate.py).

The program converts object-detection polygon outputs into per-object mass
estimates.  We give a shallow embedding: parsed JSON values become an
inductive type, Python float arithmetic is modelled by exact rational
arithmetic, and Python runtime errors (TypeError / KeyError on malformed
shapes) are modelled by Option, where none means the operation raises.
-/

/-- A parsed JSON value, the input domain of the pipeline. -/
inductive Json where
  | null : Json
  | bool (b : Bool) : Json
  | num (q : ℚ) : Json
  | str (s : String) : Json
  | arr (xs : List Json) : Json
  | obj (kvs : List (String × Json)) : Json

namespace Json

/-- Python subscript access j[k] on a string key: succeeds only on a
mapping holding the key (otherwise Python raises TypeError / KeyError). -/
def item? (j : Json) (k : String) : Option Json :=
  match j with
  | .obj kvs => kvs.lookup k
  | _ => none

/-- Interprets a JSON value as a Python number where Python arithmetic
accepts it: numbers, and booleans (True = 1, False = 0).  Any other value
makes the arithmetic of the source raise, modelled as none. -/
def asNum? : Json → Option ℚ
  | .num q => some q
  | .bool b => some (if b then 1 else 0)
  | _ => none

/-- isinstance(v, (dict, list)). -/
def isContainer : Json → Bool
  | .obj _ => true
  | .arr _ => true
  | _ => false

end Json

/-! ## Constants (MassEstimate.py lines 7-10), floats as exact rationals -/

def PX2_TO_KG : ℚ := 12 / 100000
def LOW_MULT : ℚ := 1
def MOD_MULT : ℚ := 3 / 2
def HIGH_MULT : ℚ := 2

/-! ## shoelace_area_px2 (MassEstimate.py lines 13-28) -/

/-- points[i][k] followed by use in arithmetic: extracts a numeric
coordinate, none when the point is not a mapping, lacks the key, or the
value is not numeric (the source would raise there). -/
def coordQ? (p : Json) (k : String) : Option ℚ :=
  (p.item? k).bind Json.asNum?

/-- A point the shoelace loop can consume without raising. -/
def wfPoint (p : Json) : Bool :=
  (coordQ? p "x").isSome && (coordQ? p "y").isSome

/-- The coordinates of a well-formed point (0 as a dummy otherwise). -/
def toPt (p : Json) : ℚ × ℚ :=
  ((coordQ? p "x").getD 0, (coordQ? p "y").getD 0)

/-- One iteration of the shoelace loop: x1*y2 - y1*x2 for vertex i and
vertex (i+1) % n. -/
def shoelaceTerm? (points : List Json) (i : Nat) : Option ℚ := do
  let p ← points[i]?
  let q ← points[(i + 1) % points.length]?
  let x1 ← coordQ? p "x"
  let y1 ← coordQ? p "y"
  let x2 ← coordQ? q "x"
  let y2 ← coordQ? q "y"
  pure (x1 * y2 - y1 * x2)

/-- The accumulation s += x1*y2 - y1*x2 over the listed loop indices. -/
def sumTerms? (points : List Json) : List Nat → ℚ → Option ℚ
  | [], acc => some acc
  | i :: is, acc =>
    match shoelaceTerm? points i with
    | none => none
    | some t => sumTerms? points is (acc + t)

/-- Gauss / shoelace area formula of the source: 0.0 for fewer than three
points, else the absolute cyclic cross-product sum halved; none models the
TypeError / KeyError the source raises on malformed points. -/
def shoelace_area_px2 (points : List Json) : Option ℚ :=
  if points.length < 3 then some 0
  else (sumTerms? points (List.range points.length) 0).map (fun s => |s| / 2)

/-! ## Pure cyclic cross-product sums, for the area lemmas -/

/-- Cross product term of two vertices. -/
def cross (p q : ℚ × ℚ) : ℚ := p.1 * q.2 - p.2 * q.1

/-- Sum of cross terms over consecutive pairs (the open polyline). -/
def openS : List (ℚ × ℚ) → ℚ
  | p :: q :: rest => cross p q + openS (q :: rest)
  | _ => 0

/-- Cyclic cross-product sum: the open sum plus the closing edge. -/
def cycS : List (ℚ × ℚ) → ℚ
  | [] => 0
  | p :: rest => openS (p :: rest) + cross ((p :: rest).getLastD (0, 0)) p

/-! ## prediction_to_row (MassEstimate.py lines 59-78) -/

/-- One CSV row, the dict built by prediction_to_row.  Pass-through fields
are Option Json: none models the Python None that dict.get returns for a
missing key (the explicit absence marker).  The field cls embeds the dict
key "class" (a Lean keyword). -/
structure Row where
  detection_id : Option Json
  cls : Option Json
  class_id : Option Json
  confidence : Option Json
  bbox_x : Option Json
  bbox_y : Option Json
  bbox_width : Option Json
  bbox_height : Option Json
  num_points : Nat
  area_px2 : ℚ
  mass_low_kg : ℚ
  mass_mod_kg : ℚ
  mass_high_kg : ℚ

/-- Builds the row dict from the detection mapping kvs, the computed area
and the point count; surface_kg = area_px2 * PX2_TO_KG as in the source. -/
def mkRow (kvs : List (String × Json)) (area : ℚ) (npts : Nat) : Row :=
  let surface_kg := area * PX2_TO_KG
  { detection_id := kvs.lookup "detection_id"
    cls := kvs.lookup "class"
    class_id := kvs.lookup "class_id"
    confidence := kvs.lookup "confidence"
    bbox_x := kvs.lookup "x"
    bbox_y := kvs.lookup "y"
    bbox_width := kvs.lookup "width"
    bbox_height := kvs.lookup "height"
    num_points := npts
    area_px2 := area
    mass_low_kg := surface_kg * LOW_MULT
    mass_mod_kg := surface_kg * MOD_MULT
    mass_high_kg := surface_kg * HIGH_MULT }

/-- prediction_to_row: pts = pred.get("points", []); the area is the
shoelace area when pts is a list, else 0.0; none models the error Python
raises when pred is not a mapping (.get on a non-dict) or when the
shoelace loop raises on malformed points. -/
def prediction_to_row (pred : Json) : Option Row :=
  match pred with
  | .obj kvs =>
    match (kvs.lookup "points").getD (.arr []) with
    | .arr pts =>
      match shoelace_area_px2 pts with
      | some area => some (mkRow kvs area pts.length)
      | none => none
    | _ => some (mkRow kvs 0 0)
  | _ => none

/-! ## iter_prediction_objects (MassEstimate.py lines 31-56) -/

/-- yield from v, for an arbitrary v (rule 2 of the extractor does not
check the type of out["predictions"]): lists yield elements, dicts yield
their keys, strings yield their characters, anything else raises
(TypeError: not iterable), modelled as none. -/
def yieldFrom? : Json → Option (List Json)
  | .arr xs => some xs
  | .obj kvs => some (kvs.map (fun kv => Json.str kv.1))
  | .str s => some (s.toList.map (fun c => Json.str (String.mk [c])))
  | _ => none

/-- One element of the "outputs" rule: if a mapping holding "predictions",
yield from that value (unchecked); anything else contributes nothing. -/
def outputsHead (out : Json) : Option (List Json) :=
  match out with
  | .obj okvs =>
    match okvs.lookup "predictions" with
    | some v => yieldFrom? v
    | none => some []
  | _ => some []

/-- The "outputs" rule body: for each element that is a mapping holding
"predictions", yield from that value (unchecked). -/
def outputsYield : List Json → Option (List Json)
  | [] => some []
  | out :: rest => do
    let ys ← outputsHead out
    let zs ← outputsYield rest
    pure (ys ++ zs)

mutual

/-- The extractor: first-match-wins over (1) a "predictions" list, (2) an
"outputs" list of wrappers, (3) recursion into container values of the
mapping, and recursion into elements of a top-level list; scalars yield
nothing.  The strict list of everything the lazy generator yields; none
models a raise while consuming it. -/
def iter_prediction_objects : Json → Option (List Json)
  | .obj kvs =>
    match kvs.lookup "predictions" with
    | some (.arr ps) => some ps
    | _ =>
      match kvs.lookup "outputs" with
      | some (.arr outs) => outputsYield outs
      | _ => iterValues kvs
  | .arr xs => iterItems xs
  | _ => some []

/-- Fallback: for v in obj.values(): if isinstance(v, (dict, list)):
yield from iter_prediction_objects(v). -/
def iterValues : List (String × Json) → Option (List Json)
  | [] => some []
  | (_, v) :: rest => do
    let ys ← if v.isContainer then iter_prediction_objects v else some []
    let zs ← iterValues rest
    pure (ys ++ zs)

/-- for item in obj: yield from iter_prediction_objects(item). -/
def iterItems : List Json → Option (List Json)
  | [] => some []
  | x :: xs => do
    let ys ← iter_prediction_objects x
    let zs ← iterItems xs
    pure (ys ++ zs)

end

/-! ## The row list and the totals row (MassEstimate.py lines 91, 114-134) -/

/-- rows = [prediction_to_row(p) for p in iter_prediction_objects(data)]. -/
def pipelineRows (data : Json) : Option (List Row) := do
  let preds ← iter_prediction_objects data
  preds.mapM prediction_to_row

/-- Python sum() over a sequence of numbers: left fold of + from 0. -/
def pySum (l : List ℚ) : ℚ := l.foldl (· + ·) 0

/-- The totals row written when write_totals_row is set: sentinel
detection_id "TOTAL", blank categorical fields, four accumulated sums. -/
structure TotalsRow where
  detection_id : String
  cls : String
  class_id : String
  confidence : String
  bbox_x : String
  bbox_y : String
  bbox_width : String
  bbox_height : String
  num_points : String
  area_px2 : ℚ
  mass_low_kg : ℚ
  mass_mod_kg : ℚ
  mass_high_kg : ℚ

/-- The totals computation of json_predictions_to_csv. -/
def totalsRow (rows : List Row) : TotalsRow :=
  { detection_id := "TOTAL"
    cls := ""
    class_id := ""
    confidence := ""
    bbox_x := ""
    bbox_y := ""
    bbox_width := ""
    bbox_height := ""
    num_points := ""
    area_px2 := pySum (rows.map Row.area_px2)
    mass_low_kg := pySum (rows.map Row.mass_low_kg)
    mass_mod_kg := pySum (rows.map Row.mass_mod_kg)
    mass_high_kg := pySum (rows.map Row.mass_high_kg) }

/-! ## Derived definitions used by the statements -/


/-- Vertex i of the embedded point list, as a rational pair. -/
def vtx (l : List Json) (i : Nat) : ℚ × ℚ := toPt (l.getD i Json.null)

/-- x coordinate of vertex i, as the spec formula reads it. -/
def ptX (l : List Json) (i : Nat) : ℚ := (vtx l i).1

/-- y coordinate of vertex i, as the spec formula reads it. -/
def ptY (l : List Json) (i : Nat) : ℚ := (vtx l i).2

/-- The area formula exactly as the spec states it, for n points:
area = the absolute value of the sum over i below n of
x_i * y_((i+1) mod n) - y_i * x_((i+1) mod n), halved. -/
def shoelaceSpec (l : List Json) : ℚ :=
  |∑ i ∈ Finset.range l.length,
    (ptX l i * ptY l ((i + 1) % l.length) - ptY l i * ptX l ((i + 1) % l.length))| / 2

/-- The "points" value a detection mapping must carry for the estimator
not to raise: anything but a sequence, or a sequence that is degenerate
(fewer than 3 entries) or made of mappings with numeric x and y. -/
def goodPointsB (kvs : List (String × Json)) : Bool :=
  match (kvs.lookup "points").getD (.arr []) with
  | .arr pts => decide (pts.length < 3) || pts.all wfPoint
  | _ => true


/-- A value Python can iterate with yield from. -/
def iterableJson : Json → Bool
  | .arr _ => true
  | .obj _ => true
  | .str _ => true
  | _ => false

/-- An "outputs" value that the second extractor rule consumes without
raising: every element that is a mapping holding "predictions" holds an
iterable one there. -/
def okOutputsVal : Json → Bool
  | .arr outs => outs.all (fun out =>
      match out with
      | .obj okvs =>
        match okvs.lookup "predictions" with
        | some v => iterableJson v
        | none => true
      | _ => true)
  | _ => true

mutual

/-- No mapping anywhere in the value pairs an "outputs" key with a list
containing a wrapper whose "predictions" value is not iterable. -/
def badOutputsFree : Json → Bool
  | .obj kvs =>
    (kvs.all fun p => if p.1 = "outputs" then okOutputsVal p.2 else true)
      && badOutputsFreeValues kvs
  | .arr xs => badOutputsFreeItems xs
  | _ => true

def badOutputsFreeValues : List (String × Json) → Bool
  | [] => true
  | (_, v) :: rest => badOutputsFree v && badOutputsFreeValues rest

def badOutputsFreeItems : List Json → Bool
  | [] => true
  | x :: xs => badOutputsFree x && badOutputsFreeItems xs

end

/-! ## Lemmas: the pure cyclic cross-product sum -/

lemma cross_same (p : ℚ × ℚ) : cross p p = 0 := by
  simp [cross, mul_comm]

lemma cross_rev (p q : ℚ × ℚ) : cross q p = -cross p q := by
  simp only [cross]
  ring

lemma getLastD_indep {α : Type _} (l : List α) (hl : l ≠ []) (a b : α) :
    l.getLastD a = l.getLastD b := by
  cases h : l.getLast? with
  | none => exact absurd (List.getLast?_eq_none_iff.mp h) hl
  | some z => simp [List.getLastD_eq_getLast?, h]

lemma openS_concat :
    ∀ (ps : List (ℚ × ℚ)) (x : ℚ × ℚ), ps ≠ [] →
      openS (ps ++ [x]) = openS ps + cross (ps.getLastD (0, 0)) x := by
  intro ps
  induction ps with
  | nil => intro x h; exact absurd rfl h
  | cons p rest ih =>
    intro x _
    cases rest with
    | nil => simp [openS]
    | cons q rest2 =>
      have h2 := ih x (by simp)
      have hd : (q :: rest2).getLastD p = (q :: rest2).getLastD (0, 0) :=
        getLastD_indep _ (by simp) _ _
      simp only [List.cons_append, List.append_eq, openS, List.getLastD_cons, hd] at h2 ⊢
      rw [h2]
      ring

lemma openS_reverse : ∀ ps : List (ℚ × ℚ), openS ps.reverse = -openS ps := by
  intro ps
  induction ps with
  | nil => simp [openS]
  | cons p rest ih =>
    cases rest with
    | nil => simp [openS]
    | cons q rest2 =>
      have hne : (q :: rest2).reverse ≠ [] := by simp
      have hcat := openS_concat ((q :: rest2).reverse) p hne
      have hlast : ((q :: rest2).reverse).getLastD (0, 0) = q := by
        simp [List.getLastD_eq_getLast?]
      simp only [List.reverse_cons] at hcat hlast ih ⊢
      rw [hcat, hlast, ih]
      have hqp : cross q p = -cross p q := cross_rev p q
      simp only [openS, hqp]
      ring

lemma cycS_eq (ps : List (ℚ × ℚ)) (h : ps ≠ []) :
    cycS ps = openS ps + cross (ps.getLastD (0, 0)) (ps.headD (0, 0)) := by
  cases ps with
  | nil => exact absurd rfl h
  | cons p rest =>
    have : (p :: rest).getLastD (0, 0) = (p :: rest).getLastD p :=
      getLastD_indep _ (by simp) _ _
    simp [cycS, this]

lemma cycS_reverse (ps : List (ℚ × ℚ)) : cycS ps.reverse = -cycS ps := by
  cases ps with
  | nil => simp [cycS]
  | cons p rest =>
    have hne : p :: rest ≠ [] := by simp
    have hne2 : (p :: rest).reverse ≠ [] := by simp
    rw [cycS_eq _ hne2, cycS_eq _ hne, openS_reverse]
    have h1 : ((p :: rest).reverse).getLastD (0, 0) = (p :: rest).headD (0, 0) := by
      simp [List.getLastD_eq_getLast?]
    have h2 : ((p :: rest).reverse).headD (0, 0) = (p :: rest).getLastD (0, 0) := by
      cases hg : rest.getLast? with
      | none => simp [List.getLastD_eq_getLast?, List.getLast?_cons, hg]
      | some z => simp [List.getLastD_eq_getLast?, List.getLast?_cons, hg]
    rw [h1, h2, cross_rev]
    ring

lemma cycS_rotate_one (ps : List (ℚ × ℚ)) : cycS (ps.rotate 1) = cycS ps := by
  cases ps with
  | nil => simp
  | cons p rest =>
    have hrot : (p :: rest).rotate 1 = rest ++ [p] := by
      have := List.rotate_cons_succ rest p 0
      simpa using this
    rw [hrot]
    cases rest with
    | nil => simp
    | cons q rest2 =>
      have hne1 : (q :: rest2) ++ [p] ≠ [] := by simp
      have hne2 : p :: q :: rest2 ≠ [] := by simp
      rw [cycS_eq _ hne1, cycS_eq _ hne2]
      rw [openS_concat _ p (by simp)]
      have hlast : ((q :: rest2) ++ [p]).getLastD (0, 0) = p := List.getLastD_concat _ _ _
      have hhead : ((q :: rest2) ++ [p]).headD (0, 0) = q := by simp
      have hlast2 : (p :: q :: rest2).getLastD (0, 0) = (q :: rest2).getLastD (0, 0) := by
        simp [List.getLastD_eq_getLast?, List.getLast?_cons_cons]
      rw [hlast, hhead, hlast2]
      simp only [openS, List.headD_cons]
      ring

lemma cycS_rotate (ps : List (ℚ × ℚ)) : ∀ k : Nat, cycS (ps.rotate k) = cycS ps := by
  intro k
  induction k with
  | zero => simp
  | succ k ih =>
    have : ps.rotate (k + 1) = (ps.rotate k).rotate 1 := by
      rw [List.rotate_rotate]
    rw [this, cycS_rotate_one, ih]

/-! ## Lemmas: the embedded shoelace loop versus the pure cyclic sum -/

lemma toPt_null : toPt Json.null = (0, 0) := rfl

lemma wfPoint_coords (p : Json) (h : wfPoint p = true) :
    coordQ? p "x" = some (toPt p).1 ∧ coordQ? p "y" = some (toPt p).2 := by
  rw [wfPoint, Bool.and_eq_true] at h
  obtain ⟨hx, hy⟩ := h
  cases ex : coordQ? p "x" with
  | none => rw [ex] at hx; simp at hx
  | some x =>
    cases ey : coordQ? p "y" with
    | none => rw [ey] at hy; simp at hy
    | some y => simp [toPt, ex, ey]

lemma shoelaceTerm?_eq (l : List Json) (hwf : ∀ p ∈ l, wfPoint p = true)
    (i : Nat) (hi : i < l.length) :
    shoelaceTerm? l i = some (cross (vtx l i) (vtx l ((i + 1) % l.length))) := by
  have hn : 0 < l.length := by omega
  have hi2 : (i + 1) % l.length < l.length := Nat.mod_lt _ hn
  have e1 : l[i]? = some l[i] := List.getElem?_eq_getElem hi
  have e2 : l[(i + 1) % l.length]? = some l[(i + 1) % l.length] :=
    List.getElem?_eq_getElem hi2
  have w1 := wfPoint_coords _ (hwf _ (List.getElem_mem hi))
  have w2 := wfPoint_coords _ (hwf _ (List.getElem_mem hi2))
  have v1 : vtx l i = toPt l[i] := by
    simp [vtx, List.getD_eq_getElem?_getD, e1]
  have v2 : vtx l ((i + 1) % l.length) = toPt l[(i + 1) % l.length] := by
    simp [vtx, List.getD_eq_getElem?_getD, e2]
  simp [shoelaceTerm?, e1, e2, w1.1, w1.2, w2.1, w2.2, v1, v2, cross]

lemma sumTerms?_eq_of (l : List Json) (f : Nat → ℚ) :
    ∀ (is : List Nat), (∀ i ∈ is, shoelaceTerm? l i = some (f i)) →
      ∀ acc : ℚ, sumTerms? l is acc = some (acc + (is.map f).sum) := by
  intro is
  induction is with
  | nil => intro _ acc; simp [sumTerms?]
  | cons i rest ih =>
    intro h acc
    have hi := h i (by simp)
    have hrest := ih (fun j hj => h j (by simp [hj]))
    simp only [sumTerms?, hi, hrest, List.map_cons, List.sum_cons]
    congr 1
    ring

lemma sumTerms?_none (l : List Json) (j : Nat) (hterm : shoelaceTerm? l j = none) :
    ∀ (is : List Nat), j ∈ is → ∀ acc : ℚ, sumTerms? l is acc = none := by
  intro is
  induction is with
  | nil => intro h; simp at h
  | cons i rest ih =>
    intro hj acc
    cases ht : shoelaceTerm? l i with
    | none => simp [sumTerms?, ht]
    | some t =>
      have hjr : j ∈ rest := by
        rcases List.mem_cons.mp hj with h | h
        · subst h; rw [ht] at hterm; exact absurd hterm (by simp)
        · exact h
      simp [sumTerms?, ht, ih hjr]

lemma sumTerms?_some_terms (l : List Json) :
    ∀ (is : List Nat) (acc : ℚ) (s : ℚ), sumTerms? l is acc = some s →
      ∀ i ∈ is, (shoelaceTerm? l i).isSome := by
  intro is
  induction is with
  | nil => intro _ _ _ i h; simp at h
  | cons i rest ih =>
    intro acc s hsum j hj
    cases ht : shoelaceTerm? l i with
    | none => simp [sumTerms?, ht] at hsum
    | some t =>
      rcases List.mem_cons.mp hj with h | h
      · subst h; simp [ht]
      · rw [sumTerms?, ht] at hsum
        exact ih _ _ hsum j h

lemma range_map_open_eq_openS :
    ∀ qs : List (ℚ × ℚ),
      ((List.range (qs.length - 1)).map
        (fun i => cross (qs.getD i (0, 0)) (qs.getD (i + 1) (0, 0)))).sum = openS qs := by
  intro qs
  induction qs with
  | nil => simp [openS]
  | cons p rest ih =>
    cases rest with
    | nil => simp [openS]
    | cons q rest2 =>
      have hlen : (p :: q :: rest2).length - 1 = ((q :: rest2).length - 1) + 1 := by
        simp
      rw [hlen, List.range_succ_eq_map]
      simp only [List.map_cons, List.map_map, List.sum_cons, Function.comp_def,
        Nat.succ_eq_add_one, List.getD_cons_succ, List.getD_cons_zero]
      rw [show openS (p :: q :: rest2) = cross p q + openS (q :: rest2) from rfl]
      simp only [List.getD_cons_succ] at ih
      rw [ih]

lemma range_map_cyc_eq_cycS (qs : List (ℚ × ℚ)) (h : qs ≠ []) :
    ((List.range qs.length).map
      (fun i => cross (qs.getD i (0, 0)) (qs.getD ((i + 1) % qs.length) (0, 0)))).sum
      = cycS qs := by
  have hn : 0 < qs.length := List.length_pos.mpr h
  have hsplit : List.range qs.length = List.range (qs.length - 1) ++ [qs.length - 1] := by
    have := List.range_succ (qs.length - 1)
    rw [← this]
    congr 1
    omega
  rw [hsplit, List.map_append, List.sum_append]
  have hlast_mod : (qs.length - 1 + 1) % qs.length = 0 := by
    have : qs.length - 1 + 1 = qs.length := by omega
    simp [this]
  have hterm_last :
      ((([qs.length - 1]).map
        (fun i => cross (qs.getD i (0, 0)) (qs.getD ((i + 1) % qs.length) (0, 0)))).sum)
      = cross (qs.getLastD (0, 0)) (qs.headD (0, 0)) := by
    simp only [List.map_cons, List.map_nil, List.sum_cons, List.sum_nil, add_zero, hlast_mod]
    congr 1
    · rw [List.getLastD_eq_getLast?, List.getLast?_eq_getElem?,
        List.getD_eq_getElem?_getD]
    · rw [List.headD_eq_head?_getD, List.head?_eq_getElem?, List.getD_eq_getElem?_getD]
  have hmain :
      ((List.range (qs.length - 1)).map
        (fun i => cross (qs.getD i (0, 0)) (qs.getD ((i + 1) % qs.length) (0, 0)))).sum
      = ((List.range (qs.length - 1)).map
        (fun i => cross (qs.getD i (0, 0)) (qs.getD (i + 1) (0, 0)))).sum := by
    apply congrArg
    apply List.map_congr_left
    intro i hi
    have : i < qs.length - 1 := List.mem_range.mp hi
    have hmod : (i + 1) % qs.length = i + 1 := Nat.mod_eq_of_lt (by omega)
    rw [hmod]
  rw [hterm_last, hmain, range_map_open_eq_openS, cycS_eq qs h]

lemma shoelace_eq_cycS (l : List Json) (h3 : 3 ≤ l.length)
    (hwf : ∀ p ∈ l, wfPoint p = true) :
    shoelace_area_px2 l = some (|cycS (l.map toPt)| / 2) := by
  have hterms : ∀ i ∈ List.range l.length,
      shoelaceTerm? l i = some (cross (vtx l i) (vtx l ((i + 1) % l.length))) := by
    intro i hi
    exact shoelaceTerm?_eq l hwf i (List.mem_range.mp hi)
  have hsum := sumTerms?_eq_of l
    (fun i => cross (vtx l i) (vtx l ((i + 1) % l.length))) (List.range l.length) hterms 0
  rw [shoelace_area_px2, if_neg (by omega), hsum]
  have hqs : ∀ i : Nat, (l.map toPt).getD i (0, 0) = vtx l i := by
    intro i
    have := List.getD_map (n := i) toPt (l := l) (d := Json.null)
    rw [toPt_null] at this
    rw [this, vtx]
  have hlen : (l.map toPt).length = l.length := List.length_map _ _
  have hbridge := range_map_cyc_eq_cycS (l.map toPt) (by
    intro hnil
    rw [hnil] at hlen
    simp at hlen
    omega)
  rw [hlen] at hbridge
  simp only [hqs] at hbridge
  simp only [Option.map_some', zero_add, hbridge]

lemma shoelace_none_of_bad (l : List Json) (h3 : 3 ≤ l.length)
    (p : Json) (hp : p ∈ l) (hbad : wfPoint p = false) :
    shoelace_area_px2 l = none := by
  obtain ⟨j, hj, hpj⟩ := List.getElem_of_mem hp
  have hn : 0 < l.length := by omega
  have hj2 : (j + 1) % l.length < l.length := Nat.mod_lt _ hn
  have e1 : l[j]? = some l[j] := List.getElem?_eq_getElem hj
  have e2 : l[(j + 1) % l.length]? = some l[(j + 1) % l.length] :=
    List.getElem?_eq_getElem hj2
  have hterm : shoelaceTerm? l j = none := by
    simp only [shoelaceTerm?, e1, e2, Option.bind_eq_bind, Option.some_bind, hpj]
    cases ex : coordQ? p "x" with
    | none => simp
    | some x =>
      cases ey : coordQ? p "y" with
      | none => simp [ex]
      | some y =>
        exfalso
        rw [wfPoint] at hbad
        simp [ex, ey] at hbad
  have hnone := sumTerms?_none l j hterm (List.range l.length)
    (List.mem_range.mpr hj) 0
  rw [shoelace_area_px2, if_neg (by omega), hnone]
  rfl

lemma term_isSome_wf (l : List Json) (j : Nat) (hj : j < l.length)
    (h : (shoelaceTerm? l j).isSome) : wfPoint l[j] = true := by
  have hn : 0 < l.length := by omega
  have hj2 : (j + 1) % l.length < l.length := Nat.mod_lt _ hn
  have e1 : l[j]? = some l[j] := List.getElem?_eq_getElem hj
  have e2 : l[(j + 1) % l.length]? = some l[(j + 1) % l.length] :=
    List.getElem?_eq_getElem hj2
  simp only [shoelaceTerm?, e1, e2, Option.bind_eq_bind, Option.some_bind] at h
  rw [wfPoint, Bool.and_eq_true]
  cases ex : coordQ? l[j] "x" with
  | none => rw [ex] at h; simp at h
  | some x =>
    cases ey : coordQ? l[j] "y" with
    | none => rw [ex, ey] at h; simp at h
    | some y => simp [ex, ey]

lemma shoelace_some_imp_wf (l : List Json) (h3 : 3 ≤ l.length)
    (hs : (shoelace_area_px2 l).isSome) : ∀ p ∈ l, wfPoint p = true := by
  intro p hp
  rw [shoelace_area_px2, if_neg (by omega)] at hs
  cases hsum : sumTerms? l (List.range l.length) 0 with
  | none => rw [hsum] at hs; simp at hs
  | some s =>
    obtain ⟨j, hj, hpj⟩ := List.getElem_of_mem hp
    have := sumTerms?_some_terms l (List.range l.length) 0 s hsum j
      (List.mem_range.mpr hj)
    rw [← hpj]
    exact term_isSome_wf l j hj this

lemma shoelace_nonneg (l : List Json) (a : ℚ) (h : shoelace_area_px2 l = some a) :
    0 ≤ a := by
  rw [shoelace_area_px2] at h
  by_cases hlen : l.length < 3
  · rw [if_pos hlen] at h
    rw [Option.some_inj] at h
    rw [← h]
  · rw [if_neg hlen] at h
    cases hsum : sumTerms? l (List.range l.length) 0 with
    | none => rw [hsum] at h; simp at h
    | some s =>
      rw [hsum] at h
      simp only [Option.map_some', Option.some_inj] at h
      rw [← h]
      positivity

/-! ## When prediction_to_row succeeds -/


lemma shoelace_isSome_iff (pts : List Json) :
    (shoelace_area_px2 pts).isSome = (decide (pts.length < 3) || pts.all wfPoint) := by
  by_cases hlen : pts.length < 3
  · rw [shoelace_area_px2, if_pos hlen]
    simp [hlen]
  · cases hall : pts.all wfPoint with
    | true =>
      rw [shoelace_eq_cycS pts (by omega) (fun p hp => by
        exact List.all_eq_true.mp hall p hp)]
      simp [hlen]
    | false =>
      obtain ⟨p, hp, hbad⟩ := List.all_eq_false.mp hall
      rw [shoelace_none_of_bad pts (by omega) p hp (Bool.not_eq_true _ |>.mp hbad)]
      simp [hlen]

lemma prediction_to_row_isSome (kvs : List (String × Json)) :
    (prediction_to_row (.obj kvs)).isSome = goodPointsB kvs := by
  rw [prediction_to_row, goodPointsB]
  cases hpts : (kvs.lookup "points").getD (.arr []) with
  | arr pts =>
    show (match shoelace_area_px2 pts with
      | some area => some (mkRow kvs area pts.length)
      | none => none).isSome = (decide (pts.length < 3) || pts.all wfPoint)
    rw [← shoelace_isSome_iff]
    cases hs : shoelace_area_px2 pts with
    | none => simp [hs]
    | some a => simp [hs]
  | null => simp
  | bool b => simp
  | num q => simp
  | str s => simp
  | obj o => simp

/-! ## When the extractor raises no error -/

lemma lookup_mem {l : List (String × Json)} {k : String} {v : Json}
    (h : l.lookup k = some v) : (k, v) ∈ l := by
  obtain ⟨l1, l2, rfl, -⟩ := List.lookup_eq_some_iff.mp h
  simp

lemma badOutputsFreeValues_mem {kvs : List (String × Json)}
    (h : badOutputsFreeValues kvs = true) {p : String × Json} (hp : p ∈ kvs) :
    badOutputsFree p.2 = true := by
  induction kvs with
  | nil => simp at hp
  | cons q rest ih =>
    obtain ⟨k, v⟩ := q
    rw [badOutputsFreeValues, Bool.and_eq_true] at h
    rcases List.mem_cons.mp hp with hq | hq
    · subst hq; exact h.1
    · exact ih h.2 hq

lemma badOutputsFreeItems_mem {xs : List Json}
    (h : badOutputsFreeItems xs = true) {x : Json} (hx : x ∈ xs) :
    badOutputsFree x = true := by
  induction xs with
  | nil => simp at hx
  | cons y rest ih =>
    rw [badOutputsFreeItems, Bool.and_eq_true] at h
    rcases List.mem_cons.mp hx with hq | hq
    · subst hq; exact h.1
    · exact ih h.2 hq

lemma yieldFrom?_isSome (v : Json) (h : iterableJson v = true) :
    (yieldFrom? v).isSome := by
  cases v <;> simp [yieldFrom?, iterableJson] at h ⊢

lemma outputsYield_isSome (outs : List Json) (h : okOutputsVal (.arr outs) = true) :
    (outputsYield outs).isSome := by
  induction outs with
  | nil => simp [outputsYield]
  | cons out rest ih =>
    rw [okOutputsVal, List.all_cons, Bool.and_eq_true] at h
    have hrest := ih (by rw [okOutputsVal]; exact h.2)
    obtain ⟨zs, hzs⟩ := Option.isSome_iff_exists.mp hrest
    have hhead : (outputsHead out).isSome := by
      cases out with
      | obj okvs =>
        cases hk : okvs.lookup "predictions" with
        | none => simp [outputsHead, hk]
        | some v =>
          have hok := h.1
          simp only [hk] at hok
          simp only [outputsHead, hk]
          exact yieldFrom?_isSome v hok
      | null => simp [outputsHead]
      | bool b => simp [outputsHead]
      | num q => simp [outputsHead]
      | str s => simp [outputsHead]
      | arr a => simp [outputsHead]
    obtain ⟨ys, hys⟩ := Option.isSome_iff_exists.mp hhead
    rw [outputsYield]
    rw [hys, hzs]
    simp

lemma iterValues_isSome (kvs : List (String × Json))
    (h : ∀ p ∈ kvs, p.2.isContainer = true → (iter_prediction_objects p.2).isSome) :
    (iterValues kvs).isSome := by
  induction kvs with
  | nil => simp [iterValues]
  | cons q rest ih =>
    obtain ⟨k, v⟩ := q
    have hrest := ih (fun p hp hc => h p (by simp [hp]) hc)
    obtain ⟨zs, hzs⟩ := Option.isSome_iff_exists.mp hrest
    rw [iterValues]
    cases hc : v.isContainer with
    | false =>
      rw [if_neg (by simp [hc]), hzs]
      simp
    | true =>
      obtain ⟨ys, hys⟩ := Option.isSome_iff_exists.mp (h (k, v) (by simp) hc)
      rw [if_pos (by simp [hc]), hys, hzs]
      simp

lemma iterItems_isSome (xs : List Json)
    (h : ∀ x ∈ xs, (iter_prediction_objects x).isSome) :
    (iterItems xs).isSome := by
  induction xs with
  | nil => simp [iterItems]
  | cons x rest ih =>
    have hrest := ih (fun y hy => h y (by simp [hy]))
    obtain ⟨zs, hzs⟩ := Option.isSome_iff_exists.mp hrest
    obtain ⟨ys, hys⟩ := Option.isSome_iff_exists.mp (h x (by simp))
    rw [iterItems, hys, hzs]
    simp

lemma json_sizeOf_pos (j : Json) : 0 < sizeOf j := by
  cases j <;> simp_arith

lemma iter_isSome_aux :
    ∀ (n : Nat) (j : Json), sizeOf j ≤ n → badOutputsFree j = true →
      (iter_prediction_objects j).isSome := by
  intro n
  induction n with
  | zero =>
    intro j hsz _
    exact absurd hsz (by have := json_sizeOf_pos j; omega)
  | succ n ih =>
    intro j hsz hfree
    cases j with
    | null => simp [iter_prediction_objects]
    | bool b => simp [iter_prediction_objects]
    | num q => simp [iter_prediction_objects]
    | str s => simp [iter_prediction_objects]
    | arr xs =>
      rw [iter_prediction_objects]
      rw [badOutputsFree] at hfree
      apply iterItems_isSome
      intro x hx
      have hszx : sizeOf x ≤ n := by
        have h1 : sizeOf x < sizeOf xs := List.sizeOf_lt_of_mem hx
        have h2 : sizeOf (Json.arr xs) = 1 + sizeOf xs := by simp
        omega
      exact ih x hszx (badOutputsFreeItems_mem hfree hx)
    | obj kvs =>
      rw [iter_prediction_objects]
      rw [badOutputsFree, Bool.and_eq_true] at hfree
      obtain ⟨hok, hvals⟩ := hfree
      have hfallback : (iterValues kvs).isSome := by
        apply iterValues_isSome
        intro p hp hc
        have hszp : sizeOf p.2 ≤ n := by
          have h1 : sizeOf p < sizeOf kvs := List.sizeOf_lt_of_mem hp
          have h2 : sizeOf (Json.obj kvs) = 1 + sizeOf kvs := by simp
          have h3 : sizeOf p.2 < sizeOf p := by
            obtain ⟨a, b⟩ := p
            simp_arith
          omega
        exact ih p.2 hszp (badOutputsFreeValues_mem hvals hp)
      cases hp : kvs.lookup "predictions" with
      | some v =>
        cases v with
        | arr ps => simp
        | null =>
          cases ho : kvs.lookup "outputs" with
          | some w =>
            cases w with
            | arr outs =>
              simp only
              apply outputsYield_isSome
              have hmem := lookup_mem ho
              have := List.all_eq_true.mp hok _ hmem
              simpa using this
            | null => exact hfallback
            | bool b => exact hfallback
            | num q => exact hfallback
            | str s => exact hfallback
            | obj o => exact hfallback
          | none => exact hfallback
        | bool b =>
          cases ho : kvs.lookup "outputs" with
          | some w =>
            cases w with
            | arr outs =>
              simp only
              apply outputsYield_isSome
              have hmem := lookup_mem ho
              have := List.all_eq_true.mp hok _ hmem
              simpa using this
            | null => exact hfallback
            | bool c => exact hfallback
            | num q => exact hfallback
            | str s => exact hfallback
            | obj o => exact hfallback
          | none => exact hfallback
        | num q =>
          cases ho : kvs.lookup "outputs" with
          | some w =>
            cases w with
            | arr outs =>
              simp only
              apply outputsYield_isSome
              have hmem := lookup_mem ho
              have := List.all_eq_true.mp hok _ hmem
              simpa using this
            | null => exact hfallback
            | bool c => exact hfallback
            | num r => exact hfallback
            | str s => exact hfallback
            | obj o => exact hfallback
          | none => exact hfallback
        | str s =>
          cases ho : kvs.lookup "outputs" with
          | some w =>
            cases w with
            | arr outs =>
              simp only
              apply outputsYield_isSome
              have hmem := lookup_mem ho
              have := List.all_eq_true.mp hok _ hmem
              simpa using this
            | null => exact hfallback
            | bool c => exact hfallback
            | num q => exact hfallback
            | str t => exact hfallback
            | obj o => exact hfallback
          | none => exact hfallback
        | obj o =>
          cases ho : kvs.lookup "outputs" with
          | some w =>
            cases w with
            | arr outs =>
              simp only
              apply outputsYield_isSome
              have hmem := lookup_mem ho
              have := List.all_eq_true.mp hok _ hmem
              simpa using this
            | null => exact hfallback
            | bool c => exact hfallback
            | num q => exact hfallback
            | str s => exact hfallback
            | obj o2 => exact hfallback
          | none => exact hfallback
      | none =>
        cases ho : kvs.lookup "outputs" with
        | some w =>
          cases w with
          | arr outs =>
            simp only
            apply outputsYield_isSome
            have hmem := lookup_mem ho
            have := List.all_eq_true.mp hok _ hmem
            simpa using this
          | null => exact hfallback
          | bool c => exact hfallback
          | num q => exact hfallback
          | str s => exact hfallback
          | obj o => exact hfallback
        | none => exact hfallback

/-! ## The spec reading of the shoelace formula, and remaining helpers -/


lemma list_range_sum_eq (f : ℕ → ℚ) (n : ℕ) :
    ((List.range n).map f).sum = ∑ i ∈ Finset.range n, f i := by
  induction n with
  | zero => simp
  | succ n ih => simp [List.range_succ, Finset.sum_range_succ, ih]

lemma spec_eq_cycS (l : List Json) (h : l ≠ []) :
    shoelaceSpec l = |cycS (l.map toPt)| / 2 := by
  rw [shoelaceSpec]
  have hqs : ∀ i : Nat, (l.map toPt).getD i (0, 0) = vtx l i := by
    intro i
    have := List.getD_map (n := i) toPt (l := l) (d := Json.null)
    rw [toPt_null] at this
    rw [this, vtx]
  have hlen : (l.map toPt).length = l.length := List.length_map _ _
  have hbridge := range_map_cyc_eq_cycS (l.map toPt) (by simpa using h)
  rw [hlen] at hbridge
  simp only [hqs] at hbridge
  rw [← hbridge, list_range_sum_eq]
  rfl

lemma pySum_eq_sum (l : List ℚ) : pySum l = l.sum := by
  suffices h : ∀ acc : ℚ, l.foldl (· + ·) acc = acc + l.sum by
    have := h 0
    rw [pySum, this, zero_add]
  induction l with
  | nil => intro acc; simp
  | cons x xs ih =>
    intro acc
    rw [List.foldl_cons, ih, List.sum_cons]
    ring

lemma mapM_option_mem {α β : Type _} (f : α → Option β) :
    ∀ (xs : List α) (ys : List β), xs.mapM f = some ys →
      ∀ y ∈ ys, ∃ x ∈ xs, f x = some y := by
  intro xs
  induction xs with
  | nil =>
    intro ys h y hy
    simp only [List.mapM_nil, pure, Option.some_inj] at h
    rw [← h] at hy
    simp at hy
  | cons x rest ih =>
    intro ys h y hy
    rw [List.mapM_cons] at h
    cases hfx : f x with
    | none => rw [hfx] at h; simp at h
    | some y0 =>
      rw [hfx] at h
      cases hrest : rest.mapM f with
      | none => rw [hrest] at h; simp at h
      | some ys0 =>
        rw [hrest] at h
        simp only [Option.bind_eq_bind, Option.some_bind, pure, Option.some_inj] at h
        rw [← h] at hy
        rcases List.mem_cons.mp hy with h1 | h1
        · exact ⟨x, by simp, by rw [hfx, h1]⟩
        · obtain ⟨x1, hx1, hfx1⟩ := ih ys0 hrest y h1
          exact ⟨x1, by simp [hx1], hfx1⟩

lemma prediction_to_row_shape (kvs : List (String × Json)) (r : Row)
    (h : prediction_to_row (.obj kvs) = some r) :
    ∃ area npts, r = mkRow kvs area npts ∧ 0 ≤ area := by
  rw [prediction_to_row] at h
  split at h
  · split at h
    next area hs =>
      exact ⟨area, _, (Option.some_inj.mp h).symm, shoelace_nonneg _ area hs⟩
    next hs => simp at h
  · exact ⟨0, 0, (Option.some_inj.mp h).symm, le_refl 0⟩

lemma prediction_to_row_is_obj (pred : Json) (r : Row)
    (h : prediction_to_row pred = some r) : ∃ kvs, pred = Json.obj kvs := by
  cases pred with
  | obj kvs => exact ⟨kvs, rfl⟩
  | null => simp [prediction_to_row] at h
  | bool b => simp [prediction_to_row] at h
  | num q => simp [prediction_to_row] at h
  | str s => simp [prediction_to_row] at h
  | arr a => simp [prediction_to_row] at h

lemma mkRow_nonneg (kvs : List (String × Json)) (area : ℚ) (npts : Nat)
    (h : 0 ≤ area) :
    0 ≤ (mkRow kvs area npts).area_px2 ∧ 0 ≤ (mkRow kvs area npts).mass_low_kg ∧
    0 ≤ (mkRow kvs area npts).mass_mod_kg ∧ 0 ≤ (mkRow kvs area npts).mass_high_kg := by
  have hc : (0 : ℚ) ≤ PX2_TO_KG := by norm_num [PX2_TO_KG]
  refine ⟨h, ?_, ?_, ?_⟩ <;>
    · simp only [mkRow]
      exact mul_nonneg (mul_nonneg h hc)
        (by norm_num [LOW_MULT, MOD_MULT, HIGH_MULT])

lemma shoelace_reverse (l : List Json) :
    shoelace_area_px2 l.reverse = shoelace_area_px2 l := by
  by_cases hlen : l.length < 3
  · rw [shoelace_area_px2, shoelace_area_px2, if_pos hlen,
      if_pos (by simpa using hlen)]
  · cases hall : l.all wfPoint with
    | true =>
      rw [shoelace_eq_cycS l (by omega) (List.all_eq_true.mp hall),
        shoelace_eq_cycS l.reverse (by simp; omega) (fun p hp =>
          List.all_eq_true.mp hall p (List.mem_reverse.mp hp))]
      rw [List.map_reverse, cycS_reverse, abs_neg]
    | false =>
      obtain ⟨p, hp, hbad⟩ := List.all_eq_false.mp hall
      rw [shoelace_none_of_bad l (by omega) p hp (Bool.not_eq_true _ |>.mp hbad),
        shoelace_none_of_bad l.reverse (by simp; omega) p
          (List.mem_reverse.mpr hp) (Bool.not_eq_true _ |>.mp hbad)]

lemma shoelace_rotate (l : List Json) (k : Nat) :
    shoelace_area_px2 (l.rotate k) = shoelace_area_px2 l := by
  by_cases hlen : l.length < 3
  · rw [shoelace_area_px2, shoelace_area_px2, if_pos hlen,
      if_pos (by rw [List.length_rotate]; exact hlen)]
  · have hlr : (l.rotate k).length = l.length := List.length_rotate l k
    cases hall : l.all wfPoint with
    | true =>
      rw [shoelace_eq_cycS l (by omega) (List.all_eq_true.mp hall),
        shoelace_eq_cycS (l.rotate k) (by omega) (fun p hp =>
          List.all_eq_true.mp hall p (List.mem_rotate.mp hp))]
      rw [List.map_rotate, cycS_rotate]
    | false =>
      obtain ⟨p, hp, hbad⟩ := List.all_eq_false.mp hall
      rw [shoelace_none_of_bad l (by omega) p hp (Bool.not_eq_true _ |>.mp hbad),
        shoelace_none_of_bad (l.rotate k) (by omega) p
          (List.mem_rotate.mpr hp) (Bool.not_eq_true _ |>.mp hbad)]

/-! ## The claims -/

/-- C1: for every vertex list of n >= 3 points, each a mapping with numeric
x and y entries, shoelace_area_px2 returns the absolute value of the sum
over i of x_i * y_(i+1) - y_i * x_(i+1), indices modulo n, divided by 2;
for every vertex list of fewer than 3 points it returns 0. -/
theorem C1_shoelace_formula (l : List Json) :
    (3 ≤ l.length → l.all wfPoint = true →
      shoelace_area_px2 l = some (shoelaceSpec l))
    ∧ (l.length < 3 → shoelace_area_px2 l = some 0) := by
  constructor
  · intro h3 hwf
    rw [shoelace_eq_cycS l h3 (List.all_eq_true.mp hwf),
      spec_eq_cycS l (by intro hnil; rw [hnil] at h3; simp at h3)]
  · intro h
    rw [shoelace_area_px2, if_pos h]

/-- C1 witness: the formula at the unit square, and 0 at the empty list. -/
theorem C1_shoelace_formula_witness :
    shoelace_area_px2
      [Json.obj [("x", Json.num 0), ("y", Json.num 0)],
       Json.obj [("x", Json.num 1), ("y", Json.num 0)],
       Json.obj [("x", Json.num 1), ("y", Json.num 1)],
       Json.obj [("x", Json.num 0), ("y", Json.num 1)]]
      = some (shoelaceSpec
      [Json.obj [("x", Json.num 0), ("y", Json.num 0)],
       Json.obj [("x", Json.num 1), ("y", Json.num 0)],
       Json.obj [("x", Json.num 1), ("y", Json.num 1)],
       Json.obj [("x", Json.num 0), ("y", Json.num 1)]])
    ∧ shoelace_area_px2 [] = some 0 :=
  ⟨(C1_shoelace_formula _).1 (by decide) (by rfl),
   (C1_shoelace_formula []).2 (by decide)⟩

/-- C2: a mapping holding a "predictions" sequence yields exactly its
elements in order, exploring no other key, and the five container shapes
of the spec yield what the spec lists. -/
theorem C2_extractor_shapes (kvs : List (String × Json)) (ps : List Json)
    (h : kvs.lookup "predictions" = some (.arr ps)) (p1 p2 p3 : Json) :
    iter_prediction_objects (.obj kvs) = some ps
    ∧ iter_prediction_objects (.obj [("predictions", .arr [p1, p2])]) = some [p1, p2]
    ∧ iter_prediction_objects (.arr [.obj [("predictions", .arr [p1])],
        .obj [("predictions", .arr [p2, p3])]]) = some [p1, p2, p3]
    ∧ iter_prediction_objects
        (.obj [("outputs", .arr [.obj [("predictions", .arr [p1])]])]) = some [p1]
    ∧ iter_prediction_objects (.obj []) = some []
    ∧ iter_prediction_objects
        (.obj [("foo", .obj [("predictions", .arr [p1])])]) = some [p1] := by
  refine ⟨?_, rfl, rfl, rfl, rfl, rfl⟩
  rw [iter_prediction_objects, h]

/-- C2 witness: the general rule applied at a concrete mapping. -/
theorem C2_extractor_shapes_witness :
    iter_prediction_objects (.obj [("predictions", .arr [Json.null])])
      = some [Json.null] :=
  (C2_extractor_shapes [("predictions", .arr [Json.null])] [Json.null]
    (by rfl) Json.null Json.null Json.null).1

/-- C5: the totals row's four numeric fields are the arithmetic sums of
their columns, and each is 0 for the empty row list. -/
theorem C5_totals (rows : List Row) :
    (totalsRow rows).area_px2 = (rows.map Row.area_px2).sum
    ∧ (totalsRow rows).mass_low_kg = (rows.map Row.mass_low_kg).sum
    ∧ (totalsRow rows).mass_mod_kg = (rows.map Row.mass_mod_kg).sum
    ∧ (totalsRow rows).mass_high_kg = (rows.map Row.mass_high_kg).sum
    ∧ (totalsRow ([] : List Row)).area_px2 = 0
    ∧ (totalsRow ([] : List Row)).mass_low_kg = 0
    ∧ (totalsRow ([] : List Row)).mass_mod_kg = 0
    ∧ (totalsRow ([] : List Row)).mass_high_kg = 0 :=
  ⟨pySum_eq_sum _, pySum_eq_sum _, pySum_eq_sum _, pySum_eq_sum _,
   rfl, rfl, rfl, rfl⟩

/-- C8: the computed area is invariant under reversal and under any
cyclic rotation of the vertex list, and the unit square has area 1. -/
theorem C8_winding_rotation_invariance (l : List Json) (k : Nat) :
    shoelace_area_px2 l.reverse = shoelace_area_px2 l
    ∧ shoelace_area_px2 (l.rotate k) = shoelace_area_px2 l
    ∧ shoelace_area_px2
      [Json.obj [("x", Json.num 0), ("y", Json.num 0)],
       Json.obj [("x", Json.num 1), ("y", Json.num 0)],
       Json.obj [("x", Json.num 1), ("y", Json.num 1)],
       Json.obj [("x", Json.num 0), ("y", Json.num 1)]] = some 1 := by
  refine ⟨shoelace_reverse l, shoelace_rotate l k, ?_⟩
  simp [shoelace_area_px2, sumTerms?, shoelaceTerm?, coordQ?, Json.item?,
    Json.asNum?, List.range, List.range.loop, List.lookup]
  norm_num

/-- C3 counterexample: a detection mapping whose "points" value is a list
of three numbers (not mappings) makes prediction_to_row raise
(none), so the per-detection operation is not total over all mappings. -/
theorem C3_counterexample :
    prediction_to_row (.obj [("points", .arr [.num 1, .num 2, .num 3])]) = none := rfl

/-- C3 amended: prediction_to_row on a detection mapping returns a Row
precisely when the "points" value, if a sequence of length at least 3,
consists of mappings with numeric x and y entries; all other malformed
"points" shapes (non-sequences, short sequences) degrade to zero instead
of failing. -/
theorem C3_amended_totality (kvs : List (String × Json)) :
    (prediction_to_row (.obj kvs)).isSome = goodPointsB kvs :=
  prediction_to_row_isSome kvs

/-- C4 counterexample: an "outputs" element whose "predictions" value is
a number makes the extractor raise (none), refuting error-freedom over
every malformed shape. -/
theorem C4_counterexample :
    iter_prediction_objects
      (.obj [("outputs", .arr [.obj [("predictions", .num 5)]])]) = none := rfl

/-- C4 amended: the extractor raises no error on every value in which no
mapping pairs "outputs" with a sequence containing a mapping whose
"predictions" value is not iterable (null, boolean or number); scalar
shapes matching no traversal rule yield zero detections. -/
theorem C4_amended_no_error (j : Json) (h : badOutputsFree j = true) :
    (iter_prediction_objects j).isSome
    ∧ iter_prediction_objects Json.null = some []
    ∧ (∀ b, iter_prediction_objects (Json.bool b) = some [])
    ∧ (∀ q, iter_prediction_objects (Json.num q) = some [])
    ∧ (∀ s, iter_prediction_objects (Json.str s) = some []) :=
  ⟨iter_isSome_aux (sizeOf j) j (le_refl _) h, rfl, fun _ => rfl, fun _ => rfl,
   fun _ => rfl⟩

/-- C4 witness: error-freedom at a concrete nested shape. -/
theorem C4_amended_no_error_witness :
    badOutputsFree (.obj [("foo", .obj [("outputs", .arr [.obj []])])]) = true
    ∧ (iter_prediction_objects
        (.obj [("foo", .obj [("outputs", .arr [.obj []])])])).isSome :=
  ⟨rfl, (C4_amended_no_error
    (.obj [("foo", .obj [("outputs", .arr [.obj []])])]) rfl).1⟩

/-- C6: each Row's masses are base times 1.0, 1.5 and 2.0 where base is
the pixel area times the conversion constant; they are ordered
low <= moderate <= high, strictly when the base mass is nonzero and all
equal exactly when it is zero. -/
theorem C6_mass_multipliers (pred : Json) (r : Row)
    (h : prediction_to_row pred = some r) :
    r.mass_low_kg = (r.area_px2 * PX2_TO_KG) * LOW_MULT
    ∧ r.mass_mod_kg = (r.area_px2 * PX2_TO_KG) * MOD_MULT
    ∧ r.mass_high_kg = (r.area_px2 * PX2_TO_KG) * HIGH_MULT
    ∧ r.mass_low_kg ≤ r.mass_mod_kg
    ∧ r.mass_mod_kg ≤ r.mass_high_kg
    ∧ (r.area_px2 * PX2_TO_KG ≠ 0 →
        r.mass_low_kg < r.mass_mod_kg ∧ r.mass_mod_kg < r.mass_high_kg)
    ∧ (r.area_px2 * PX2_TO_KG = 0 →
        r.mass_low_kg = r.mass_mod_kg ∧ r.mass_mod_kg = r.mass_high_kg) := by
  obtain ⟨kvs, rfl⟩ := prediction_to_row_is_obj pred r h
  obtain ⟨area, npts, rfl, harea⟩ := prediction_to_row_shape kvs r h
  have hc : (0 : ℚ) < PX2_TO_KG := by norm_num [PX2_TO_KG]
  have hbase : 0 ≤ area * PX2_TO_KG := mul_nonneg harea (le_of_lt hc)
  simp only [mkRow, LOW_MULT, MOD_MULT, HIGH_MULT]
  refine ⟨by ring_nf, by ring_nf, by ring_nf, by nlinarith, by nlinarith, ?_, ?_⟩
  · intro hne
    have hpos : 0 < area * PX2_TO_KG := lt_of_le_of_ne hbase (Ne.symm hne)
    constructor <;> nlinarith
  · intro heq
    rw [heq]
    norm_num

/-- C6 witness: the mass relations at a concrete degenerate detection. -/
theorem C6_mass_multipliers_witness :
    prediction_to_row (.obj []) = some (mkRow [] 0 0)
    ∧ (mkRow [] 0 0).mass_low_kg
        = ((mkRow [] 0 0).area_px2 * PX2_TO_KG) * LOW_MULT
    ∧ (mkRow [] 0 0).mass_mod_kg
        = ((mkRow [] 0 0).area_px2 * PX2_TO_KG) * MOD_MULT
    ∧ (mkRow [] 0 0).mass_high_kg
        = ((mkRow [] 0 0).area_px2 * PX2_TO_KG) * HIGH_MULT
    ∧ (mkRow [] 0 0).mass_low_kg ≤ (mkRow [] 0 0).mass_mod_kg
    ∧ (mkRow [] 0 0).mass_mod_kg ≤ (mkRow [] 0 0).mass_high_kg
    ∧ ((mkRow [] 0 0).area_px2 * PX2_TO_KG ≠ 0 →
        (mkRow [] 0 0).mass_low_kg < (mkRow [] 0 0).mass_mod_kg
        ∧ (mkRow [] 0 0).mass_mod_kg < (mkRow [] 0 0).mass_high_kg)
    ∧ ((mkRow [] 0 0).area_px2 * PX2_TO_KG = 0 →
        (mkRow [] 0 0).mass_low_kg = (mkRow [] 0 0).mass_mod_kg
        ∧ (mkRow [] 0 0).mass_mod_kg = (mkRow [] 0 0).mass_high_kg) :=
  ⟨rfl, C6_mass_multipliers (.obj []) (mkRow [] 0 0) rfl⟩

/-- C7: every pass-through field of the produced Row equals the source
value of its key exactly (hence none, the explicit absence marker distinct
from every number, when the key is missing). -/
theorem C7_passthrough (kvs : List (String × Json)) (r : Row)
    (h : prediction_to_row (.obj kvs) = some r) :
    r.detection_id = kvs.lookup "detection_id"
    ∧ r.cls = kvs.lookup "class"
    ∧ r.class_id = kvs.lookup "class_id"
    ∧ r.confidence = kvs.lookup "confidence"
    ∧ r.bbox_x = kvs.lookup "x"
    ∧ r.bbox_y = kvs.lookup "y"
    ∧ r.bbox_width = kvs.lookup "width"
    ∧ r.bbox_height = kvs.lookup "height"
    ∧ (∀ q : ℚ, (none : Option Json) ≠ some (.num q)) := by
  obtain ⟨area, npts, rfl, -⟩ := prediction_to_row_shape kvs r h
  simp [mkRow]

/-- C7 witness: the pass-through at a concrete fully-populated detection. -/
theorem C7_passthrough_witness :
    prediction_to_row (.obj [("detection_id", .str "a"), ("class", .str "b")])
      = some (mkRow [("detection_id", .str "a"), ("class", .str "b")] 0 0)
    ∧ (mkRow [("detection_id", .str "a"), ("class", .str "b")] 0 0).detection_id
        = List.lookup "detection_id" [("detection_id", .str "a"), ("class", .str "b")] :=
  ⟨rfl, (C7_passthrough [("detection_id", .str "a"), ("class", .str "b")]
    (mkRow [("detection_id", .str "a"), ("class", .str "b")] 0 0) rfl).1⟩

lemma pipelineRows_row_source (data : Json) (rows : List Row)
    (h : pipelineRows data = some rows) (r : Row) (hr : r ∈ rows) :
    ∃ p, prediction_to_row p = some r := by
  rw [pipelineRows] at h
  cases hiter : iter_prediction_objects data with
  | none => rw [hiter] at h; simp at h
  | some preds =>
    rw [hiter] at h
    simp only [Option.bind_eq_bind, Option.some_bind] at h
    obtain ⟨p, hp, hfp⟩ := mapM_option_mem prediction_to_row preds rows h r hr
    exact ⟨p, hfp⟩

/-- C10: every Row the pipeline produces has non-negative area and
masses, and the totals row accumulates non-negative sums. -/
theorem C10_row_invariants (data : Json) (rows : List Row)
    (h : pipelineRows data = some rows) :
    (∀ r ∈ rows, 0 ≤ r.area_px2 ∧ 0 ≤ r.mass_low_kg
      ∧ 0 ≤ r.mass_mod_kg ∧ 0 ≤ r.mass_high_kg)
    ∧ 0 ≤ (totalsRow rows).area_px2 ∧ 0 ≤ (totalsRow rows).mass_low_kg
    ∧ 0 ≤ (totalsRow rows).mass_mod_kg ∧ 0 ≤ (totalsRow rows).mass_high_kg := by
  have hmem : ∀ r ∈ rows, 0 ≤ r.area_px2 ∧ 0 ≤ r.mass_low_kg
      ∧ 0 ≤ r.mass_mod_kg ∧ 0 ≤ r.mass_high_kg := by
    intro r hr
    obtain ⟨p, hp⟩ := pipelineRows_row_source data rows h r hr
    obtain ⟨kvs, rfl⟩ := prediction_to_row_is_obj p r hp
    obtain ⟨area, npts, rfl, harea⟩ := prediction_to_row_shape kvs r hp
    exact mkRow_nonneg kvs area npts harea
  refine ⟨hmem, ?_, ?_, ?_, ?_⟩
  · rw [show (totalsRow rows).area_px2 = pySum (rows.map Row.area_px2) from rfl,
      pySum_eq_sum]
    apply List.sum_nonneg
    intro x hx
    obtain ⟨r, hr, rfl⟩ := List.mem_map.mp hx
    exact (hmem r hr).1
  · rw [show (totalsRow rows).mass_low_kg = pySum (rows.map Row.mass_low_kg) from rfl,
      pySum_eq_sum]
    apply List.sum_nonneg
    intro x hx
    obtain ⟨r, hr, rfl⟩ := List.mem_map.mp hx
    exact (hmem r hr).2.1
  · rw [show (totalsRow rows).mass_mod_kg = pySum (rows.map Row.mass_mod_kg) from rfl,
      pySum_eq_sum]
    apply List.sum_nonneg
    intro x hx
    obtain ⟨r, hr, rfl⟩ := List.mem_map.mp hx
    exact (hmem r hr).2.2.1
  · rw [show (totalsRow rows).mass_high_kg = pySum (rows.map Row.mass_high_kg) from rfl,
      pySum_eq_sum]
    apply List.sum_nonneg
    intro x hx
    obtain ⟨r, hr, rfl⟩ := List.mem_map.mp hx
    exact (hmem r hr).2.2.2

/-- C10 witness: the invariant at a concrete run with no detections. -/
theorem C10_row_invariants_witness :
    pipelineRows (.obj []) = some []
    ∧ ((∀ r ∈ ([] : List Row), 0 ≤ r.area_px2 ∧ 0 ≤ r.mass_low_kg
        ∧ 0 ≤ r.mass_mod_kg ∧ 0 ≤ r.mass_high_kg)
      ∧ 0 ≤ (totalsRow ([] : List Row)).area_px2
      ∧ 0 ≤ (totalsRow ([] : List Row)).mass_low_kg
      ∧ 0 ≤ (totalsRow ([] : List Row)).mass_mod_kg
      ∧ 0 ≤ (totalsRow ([] : List Row)).mass_high_kg) :=
  ⟨rfl, C10_row_invariants (.obj []) [] rfl⟩

/-- C9: the end-to-end example: the single bottle detection with a
10 by 10 pixel square outline, wrapped in a "predictions" container,
produces exactly one row with area 100.0 and masses 0.012 / 0.018 / 0.024
kilograms. -/
theorem C9_end_to_end :
    (pipelineRows (.obj [("predictions", .arr [
      .obj [("detection_id", .str "a"), ("class", .str "bottle"),
        ("class_id", .num 1), ("confidence", .num (9 / 10)),
        ("x", .num 10), ("y", .num 10), ("width", .num 20), ("height", .num 20),
        ("points", .arr [
          .obj [("x", .num 0), ("y", .num 0)],
          .obj [("x", .num 10), ("y", .num 0)],
          .obj [("x", .num 10), ("y", .num 10)],
          .obj [("x", .num 0), ("y", .num 10)]])]])])).map
      (List.map fun r => (r.area_px2, r.mass_low_kg, r.mass_mod_kg, r.mass_high_kg))
      = some [(100, 0.012, 0.018, 0.024)] := by
  simp [pipelineRows, iter_prediction_objects, prediction_to_row, mkRow,
    shoelace_area_px2, sumTerms?, shoelaceTerm?, coordQ?, Json.item?,
    Json.asNum?, List.range, List.range.loop, List.lookup, List.mapM,
    List.mapM.loop, PX2_TO_KG, LOW_MULT, MOD_MULT, HIGH_MULT]
  norm_num
